import Mathlib

/-!
Shallow embedding of the run-scheduling core of
`src/prefect/orion/models/deployments.py`: the operations `schedule_runs`,
`_generate_scheduled_flow_runs` and `_insert_scheduled_flow_runs`, together
with the durable store they act on (deployments, flow runs, flow run states).

Timestamps and identifiers are modelled as natural numbers.  The `uuid4`
fresh-identifier source is modelled by a counter `next_id` carried in the
store: every identifier the code generates is drawn from the counter, and
the freshness guarantee of `uuid4` (a newly drawn id collides with nothing
already stored) corresponds to the store invariant `DB.freshIds`.
-/

namespace PrefectScheduler

/-- Lifecycle state kinds; only SCHEDULED is produced by this core
(`schemas.states.StateType.SCHEDULED`). -/
inductive StateType where
  | SCHEDULED
  | RUNNING
  | COMPLETED
  deriving DecidableEq, Repr

/-- Payload of a lifecycle state, as built by
`schemas.states.Scheduled(scheduled_time=date, message="Flow run scheduled")`:
a kind, a message and the scheduled time. -/
structure StatePayload where
  type : StateType
  message : String
  scheduled_time : Nat
  deriving DecidableEq, Repr

/-- The opaque schedule capability: `deployment.schedule.get_dates(n, start, end)`
produces a list of candidate timestamps.  It is a black box to this core. -/
structure Schedule where
  getDates : Nat → Nat → Nat → List Nat

/-- Deployment row, restricted to the fields the scheduling core reads:
`id`, `flow_id`, `schedule`, `is_schedule_active`, `tags`, `parameters`.
`flow_id` is optional so that a snapshot lacking it can be expressed. -/
structure Deployment where
  id : Nat
  flow_id : Option Nat
  schedule : Option Schedule
  is_schedule_active : Bool
  tags : List String
  parameters : List (String × String)

/-- Flow-run candidate, mirroring the fields `_generate_scheduled_flow_runs`
assigns when constructing `schemas.core.FlowRun`. -/
structure FlowRun where
  id : Nat
  flow_id : Nat
  deployment_id : Nat
  parameters : List (String × String)
  idempotency_key : String
  tags : List String
  auto_scheduled : Bool
  state : StatePayload
  state_type : StateType
  next_scheduled_start_time : Nat
  expected_start_time : Nat
  deriving DecidableEq, Repr

/-- Stored flow-run row: the run's fields plus the `state_id` pointer column
set by `set_state_id_on_inserted_flow_runs_statement`. -/
structure FlowRunRow where
  run : FlowRun
  state_id : Option Nat
  deriving DecidableEq, Repr

/-- Stored flow-run-state row, as inserted by `_insert_scheduled_flow_runs`:
`{"id": uuid4(), "flow_run_id": r.id, **r.state.dict()}`. -/
structure FlowRunStateRow where
  id : Nat
  flow_run_id : Nat
  payload : StatePayload
  deriving DecidableEq, Repr

/-- The durable store shared by all operations, with the fresh-id counter
modelling `uuid4`. -/
structure DB where
  deployments : List Deployment
  flow_runs : List FlowRunRow
  flow_run_states : List FlowRunStateRow
  next_id : Nat

/-- Freshness of the id counter: every stored identifier is below `next_id`.
This is the property `uuid4` provides for free in the source. -/
def DB.freshIds (db : DB) : Bool :=
  db.flow_runs.all (fun row => row.run.id < db.next_id) &&
  db.flow_run_states.all (fun s => s.flow_run_id < db.next_id && s.id < db.next_id)

/-- Process-wide configuration consumed by `schedule_runs`:
`prefect.settings.orion.services.scheduler_max_runs` and
`scheduler_max_scheduled_time`. -/
structure Config where
  scheduler_max_runs : Nat
  scheduler_max_scheduled_time : Nat

/-- Errors surfaced by the core.  `invalidDeploymentState` models the
validation failure raised when a `FlowRun` is built from a deployment
snapshot lacking a `flow_id`. -/
inductive SchedulerError where
  | invalidDeploymentState
  deriving DecidableEq, Repr

/-- Idempotency key of a scheduled run: the f-string
`f"scheduled \x7bdeployment.id\x7d \x7bdate\x7d"` of the source. -/
def idempotencyKey (deploymentId : Nat) (date : Nat) : String :=
  "scheduled " ++ toString deploymentId ++ " " ++ toString date

/-- Construction of one `schemas.core.FlowRun` inside the loop of
`_generate_scheduled_flow_runs` (source lines 333-347), given the fresh id
`runId` drawn for it.  Modelled from the spec: the failure with
`InvalidDeploymentState` when the deployment snapshot lacks a `flow_id` is
pydantic validation of `schemas.core.FlowRun`, whose code is outside `src/`;
the spec states the builder "Fails with `InvalidDeploymentState` if the
deployment snapshot lacks a `flow_id`". -/
def buildRun (d : Deployment) (deployment_id : Nat) (date : Nat) (runId : Nat) :
    Except SchedulerError FlowRun :=
  match d.flow_id with
  | none => .error .invalidDeploymentState
  | some fid =>
      .ok
        { id := runId
          flow_id := fid
          deployment_id := deployment_id
          parameters := d.parameters
          idempotency_key := idempotencyKey d.id date
          tags := ["auto-scheduled"] ++ d.tags
          auto_scheduled := true
          state :=
            { type := .SCHEDULED
              message := "Flow run scheduled"
              scheduled_time := date }
          state_type := .SCHEDULED
          next_scheduled_start_time := date
          expected_start_time := date }

/-- The `for date in dates` loop of `_generate_scheduled_flow_runs`,
allotting consecutive fresh ids starting at `nextId`. -/
def buildRuns (d : Deployment) (deployment_id : Nat) (dates : List Nat)
    (nextId : Nat) : Except SchedulerError (List FlowRun) :=
  match dates with
  | [] => .ok []
  | date :: rest =>
    match buildRun d deployment_id date nextId with
    | .error e => .error e
    | .ok r =>
      match buildRuns d deployment_id rest (nextId + 1) with
      | .error e => .error e
      | .ok rs => .ok (r :: rs)

/-- Embedding of `_generate_scheduled_flow_runs`: look the deployment up,
short-circuit to `[]` when it is missing, has no schedule, or the schedule
is inactive; otherwise enumerate dates and build one run per date.  The
returned store differs from the input only in the fresh-id counter, which
advances by the number of ids drawn: the function performs no write. -/
def _generate_scheduled_flow_runs (db : DB) (deployment_id : Nat)
    (start_time : Nat) (end_time : Nat) (max_runs : Nat) :
    Except SchedulerError (List FlowRun × DB) :=
  match db.deployments.find? (fun d => d.id == deployment_id) with
  | none => .ok ([], db)
  | some deployment =>
    match deployment.schedule with
    | none => .ok ([], db)
    | some sched =>
      if !deployment.is_schedule_active then .ok ([], db)
      else
        let dates := sched.getDates max_runs start_time end_time
        match buildRuns deployment deployment_id dates db.next_id with
        | .error e => .error e
        | .ok runs =>
            .ok (runs, { db with next_id := db.next_id + dates.length })

/-- Conflict test of the batch insert: does some stored row already carry
this idempotency key? -/
def anyKey (rows : List FlowRunRow) (k : String) : Bool :=
  rows.any (fun row => row.run.idempotency_key == k)

/-- `anyKey` lifted to the store. -/
def keyPresent (db : DB) (k : String) : Bool :=
  anyKey db.flow_runs k

/-- The batch `insert ... on_conflict_do_nothing` of the source, with the
conflict index on the idempotency key: each run is appended unless a row
with its key already exists (rows earlier in the same batch included, as in
an executemany against a unique constraint). -/
def insertRunsIgnoreConflicts (db : DB) (runs : List FlowRun) : DB :=
  runs.foldl
    (fun acc r =>
      if keyPresent acc r.idempotency_key then
        acc
      else
        { acc with flow_runs := acc.flow_runs ++ [{ run := r, state_id := none }] })
    db

/-- The probe query of the source (lines 383-395): ids of stored flow runs,
among the given candidate ids, that no flow-run-state row references. -/
def runsWithoutState (db : DB) (ids : List Nat) : List Nat :=
  (db.flow_runs.filter
      (fun row =>
        ids.contains row.run.id &&
        !(db.flow_run_states.any (fun s => s.flow_run_id == row.run.id)))).map
    (fun row => row.run.id)

/-- The state-row comprehension of the source (lines 398-402): one fresh-id
state row per candidate whose id was reported newly inserted, carrying the
candidate's state payload. -/
def mkStateRows (startId : Nat) (runs : List FlowRun) (insertedIds : List Nat) :
    List FlowRunStateRow :=
  match runs with
  | [] => []
  | r :: rest =>
      if insertedIds.contains r.id then
        { id := startId, flow_run_id := r.id, payload := r.state }
          :: mkStateRows (startId + 1) rest insertedIds
      else
        mkStateRows startId rest insertedIds

/-- One row's update under `set_state_id_on_inserted_flow_runs_statement`:
if a newly inserted state row matches the stored run's id, the `state_id`
pointer is set to that state row's id. -/
def setStateId1 (states : List FlowRunStateRow) (row : FlowRunRow) :
    FlowRunRow :=
  match states.find? (fun s => s.flow_run_id == row.run.id) with
  | some s => { row with state_id := some s.id }
  | none => row

/-- The `set_state_id_on_inserted_flow_runs_statement` update over the whole
`flow_runs` table. -/
def setStateIds (rows : List FlowRunRow) (states : List FlowRunStateRow) :
    List FlowRunRow :=
  rows.map (setStateId1 states)

/-- Second half of `_insert_scheduled_flow_runs`: when at least one state
row is to be written (`if insert_flow_run_states:` in the source), insert
the state rows and point the stored runs at them; otherwise leave the store
as the batch insert left it. -/
def applyStates (db1 : DB) (states : List FlowRunStateRow) : DB :=
  if states.isEmpty then db1
  else
    { db1 with
      flow_runs := setStateIds db1.flow_runs states
      flow_run_states := db1.flow_run_states ++ states
      next_id := db1.next_id + states.length }

/-- Embedding of `_insert_scheduled_flow_runs`: empty input is a no-op;
otherwise insert the batch ignoring idempotency-key conflicts, probe for the
candidate ids now stored with no state row, insert one state row per such
id, point the stored runs at their states, and return the candidates whose
ids the probe reported. -/
def _insert_scheduled_flow_runs (db : DB) (runs : List FlowRun) :
    List FlowRun × DB :=
  if runs.isEmpty then ([], db)
  else
    let db1 := insertRunsIgnoreConflicts db runs
    let inserted_flow_run_ids := runsWithoutState db1 (runs.map (fun r => r.id))
    let insert_flow_run_states :=
      mkStateRows db1.next_id runs inserted_flow_run_ids
    (runs.filter (fun r => inserted_flow_run_ids.contains r.id),
     applyStates db1 insert_flow_run_states)

/-- Embedding of `schedule_runs`: resolve the defaults (`max_runs` from
configuration, `start_time` from the current clock `now`, `end_time` from
the configured horizon), then generate and insert. -/
def schedule_runs (cfg : Config) (now : Nat) (db : DB) (deployment_id : Nat)
    (start_time : Option Nat) (end_time : Option Nat) (max_runs : Option Nat) :
    Except SchedulerError (List FlowRun × DB) :=
  match _generate_scheduled_flow_runs db deployment_id (start_time.getD now)
      (end_time.getD (start_time.getD now + cfg.scheduler_max_scheduled_time))
      (max_runs.getD cfg.scheduler_max_runs) with
  | .error e => .error e
  | .ok gen => .ok (_insert_scheduled_flow_runs gen.2 gen.1)

/-! ### Concrete instances

Small concrete stores, deployments and schedules used to instantiate the
theorems below at explicit inputs. -/

/-- Example schedule: three consecutive timestamps from the window start,
clipped to the window and to the requested count. -/
def sched3 : Schedule :=
  ⟨fun n s e => ((((List.range 3).map (fun k => s + k)).filter
    (fun t => t < e)).take n)⟩

/-- Example schedule that never produces a timestamp. -/
def schedEmpty : Schedule := ⟨fun _ _ _ => []⟩

/-- Example deployment with an active three-date schedule. -/
def dep1 : Deployment :=
  { id := 1, flow_id := some 7, schedule := some sched3,
    is_schedule_active := true, tags := ["t1"], parameters := [("p", "v")] }

/-- Example deployment with an active schedule that yields no dates. -/
def depEmptySched : Deployment :=
  { id := 1, flow_id := some 7, schedule := some schedEmpty,
    is_schedule_active := true, tags := [], parameters := [] }

/-- Example deployment snapshot lacking a `flow_id`. -/
def depNoFlow : Deployment :=
  { id := 3, flow_id := none, schedule := some sched3,
    is_schedule_active := true, tags := [], parameters := [] }

/-- Store holding only `dep1`. -/
def db1ex : DB :=
  { deployments := [dep1], flow_runs := [], flow_run_states := [],
    next_id := 100 }

/-- Store holding only `depEmptySched`. -/
def dbEmptySched : DB :=
  { deployments := [depEmptySched], flow_runs := [], flow_run_states := [],
    next_id := 0 }

/-- Store holding only `depNoFlow`. -/
def dbNoFlow : DB :=
  { deployments := [depNoFlow], flow_runs := [], flow_run_states := [],
    next_id := 0 }

/-- Example configuration. -/
def cfg1 : Config :=
  { scheduler_max_runs := 5, scheduler_max_scheduled_time := 10 }

/-- Candidate built from `dep1` at date 5 with fresh id 10. -/
def runW1 : FlowRun :=
  { id := 10, flow_id := 7, deployment_id := 1, parameters := [("p", "v")],
    idempotency_key := idempotencyKey 1 5, tags := ["auto-scheduled", "t1"],
    auto_scheduled := true,
    state := { type := .SCHEDULED, message := "Flow run scheduled",
               scheduled_time := 5 },
    state_type := .SCHEDULED, next_scheduled_start_time := 5,
    expected_start_time := 5 }

/-- Candidate built from `dep1` at date 5 with fresh id 20, under a
different `deployment_id` argument. -/
def runW2 : FlowRun :=
  { id := 20, flow_id := 7, deployment_id := 2, parameters := [("p", "v")],
    idempotency_key := idempotencyKey 1 5, tags := ["auto-scheduled", "t1"],
    auto_scheduled := true,
    state := { type := .SCHEDULED, message := "Flow run scheduled",
               scheduled_time := 5 },
    state_type := .SCHEDULED, next_scheduled_start_time := 5,
    expected_start_time := 5 }

/-- A run persisted by an earlier pass, sharing `runW1`'s idempotency key. -/
def runOld : FlowRun :=
  { id := 0, flow_id := 7, deployment_id := 1, parameters := [],
    idempotency_key := idempotencyKey 1 5, tags := [],
    auto_scheduled := true,
    state := { type := .SCHEDULED, message := "Flow run scheduled",
               scheduled_time := 5 },
    state_type := .SCHEDULED, next_scheduled_start_time := 5,
    expected_start_time := 5 }

/-- The state row an earlier pass linked to `runOld`. -/
def stateOld : FlowRunStateRow :=
  { id := 50, flow_run_id := 0,
    payload := { type := .SCHEDULED, message := "Flow run scheduled",
                 scheduled_time := 5 } }

/-- Store in which `runOld` is already persisted with its state. -/
def dbC2ex : DB :=
  { deployments := [dep1],
    flow_runs := [{ run := runOld, state_id := some 50 }],
    flow_run_states := [stateOld], next_id := 100 }

/-- Result of one orchestration over `db1ex`, used to instantiate theorems
whose hypotheses mention the orchestration result. -/
def exRes : List FlowRun × DB :=
  (schedule_runs cfg1 0 db1ex 1 (some 0) (some 10) (some 5)).toOption.getD
    ([], db1ex)

/-! ### Properties of the run candidate builder -/

/-- Inversion of a successful `buildRun`: every field of the produced
candidate is determined by the deployment snapshot, the date and the fresh
id. -/
theorem buildRun_ok {d : Deployment} {did date i : Nat} {r : FlowRun}
    (h : buildRun d did date i = .ok r) :
    d.flow_id = some r.flow_id ∧ r.id = i ∧ r.deployment_id = did ∧
    r.parameters = d.parameters ∧
    r.idempotency_key = idempotencyKey d.id date ∧
    r.tags = "auto-scheduled" :: d.tags ∧ r.auto_scheduled = true ∧
    r.state = ⟨.SCHEDULED, "Flow run scheduled", date⟩ ∧
    r.state_type = .SCHEDULED ∧
    r.next_scheduled_start_time = date ∧ r.expected_start_time = date := by
  cases hf : d.flow_id with
  | none => simp [buildRun, hf] at h
  | some fid =>
    simp only [buildRun, hf, Except.ok.injEq] at h
    subst h
    simp

/-- Successful `buildRun` forces the snapshot to carry a `flow_id`. -/
theorem buildRun_err {d : Deployment} {did date i : Nat}
    (h : d.flow_id = none) :
    buildRun d did date i = .error .invalidDeploymentState := by
  simp [buildRun, h]

/-- Combined inversion of a successful `buildRuns` pass: the run list is in
bijection with the date list — same length, ids consecutive from `nextId`,
keys and scheduled times the images of the dates — and every run is a
successful `buildRun` of some date. -/
theorem buildRuns_ok {d : Deployment} {did : Nat} :
    ∀ {dates : List Nat} {nextId : Nat} {rs : List FlowRun},
      buildRuns d did dates nextId = .ok rs →
      rs.length = dates.length ∧
      rs.map (fun r => r.id) = List.range' nextId dates.length ∧
      rs.map (fun r => r.idempotency_key) =
        dates.map (fun t => idempotencyKey d.id t) ∧
      rs.map (fun r => r.next_scheduled_start_time) = dates ∧
      ∀ r ∈ rs, ∃ date ∈ dates, buildRun d did date r.id = .ok r := by
  intro dates
  induction dates with
  | nil =>
    intro nextId rs h
    simp only [buildRuns, Except.ok.injEq] at h
    subst h
    simp
  | cons date rest ih =>
    intro nextId rs h
    cases hb : buildRun d did date nextId with
    | error e => simp only [buildRuns, hb] at h; exact Except.noConfusion h
    | ok r0 =>
      cases hr : buildRuns d did rest (nextId + 1) with
      | error e => simp only [buildRuns, hb, hr] at h; exact Except.noConfusion h
      | ok rs0 =>
        simp only [buildRuns, hb, hr, Except.ok.injEq] at h
        subst h
        obtain ⟨hlen, hids, hkeys, htimes, hmem⟩ := ih hr
        obtain ⟨_, hid0, _, _, hkey0, _, _, _, _, htime0, _⟩ := buildRun_ok hb
        refine ⟨by simp [hlen], ?_, ?_, ?_, ?_⟩
        · simp [List.range'_succ, hid0, hids, hlen]
        · simp [hkey0, hkeys]
        · simp [htime0, htimes]
        · intro r hrmem
          rw [List.mem_cons] at hrmem
          rcases hrmem with rfl | htail
          · exact ⟨date, by simp, by rw [hid0]; exact hb⟩
          · obtain ⟨t, ht, hbt⟩ := hmem r htail
            exact ⟨t, by simp [ht], hbt⟩

/-- Inversion of `_generate_scheduled_flow_runs`: either a short-circuit
(missing deployment, absent schedule, or inactive schedule) returning `[]`
with the store untouched, or the deployment was found active and the runs
are a successful `buildRuns` over the enumerated dates, with the fresh-id
counter advanced by their number. -/
theorem generate_inv {db : DB} {did start stop maxRuns : Nat}
    {runs : List FlowRun} {db' : DB}
    (h : _generate_scheduled_flow_runs db did start stop maxRuns =
      .ok (runs, db')) :
    (runs = [] ∧ db' = db) ∨
    ∃ d sched,
      db.deployments.find? (fun x => x.id == did) = some d ∧
      d.schedule = some sched ∧ d.is_schedule_active = true ∧
      buildRuns d did (sched.getDates maxRuns start stop) db.next_id =
        .ok runs ∧
      db' = { db with
        next_id := db.next_id + (sched.getDates maxRuns start stop).length } := by
  cases hfind : db.deployments.find? (fun x => x.id == did) with
  | none =>
    simp only [_generate_scheduled_flow_runs, hfind, Except.ok.injEq,
      Prod.mk.injEq] at h
    exact Or.inl ⟨h.1.symm, h.2.symm⟩
  | some d =>
    cases hs : d.schedule with
    | none =>
      simp only [_generate_scheduled_flow_runs, hfind, hs, Except.ok.injEq,
        Prod.mk.injEq] at h
      exact Or.inl ⟨h.1.symm, h.2.symm⟩
    | some sched =>
      cases ha : d.is_schedule_active with
      | false =>
        simp only [_generate_scheduled_flow_runs, hfind, hs, ha,
          Bool.not_false, if_pos, Except.ok.injEq, Prod.mk.injEq] at h
        exact Or.inl ⟨h.1.symm, h.2.symm⟩
      | true =>
        cases hb : buildRuns d did (sched.getDates maxRuns start stop)
            db.next_id with
        | error e =>
          simp only [_generate_scheduled_flow_runs, hfind, hs, ha,
            Bool.not_true, Bool.false_eq_true, if_false, hb] at h
          exact Except.noConfusion h
        | ok rs =>
          simp only [_generate_scheduled_flow_runs, hfind, hs, ha,
            Bool.not_true, Bool.false_eq_true, if_false, hb,
            Except.ok.injEq, Prod.mk.injEq] at h
          exact Or.inr ⟨d, sched, rfl, hs, ha, h.1 ▸ hb, h.2.symm⟩

/-! ### Properties of the conflict-ignoring batch insert -/

/-- Unfolding of one step of the batch-insert fold. -/
theorem insertRuns_cons (db : DB) (r : FlowRun) (rest : List FlowRun) :
    insertRunsIgnoreConflicts db (r :: rest) =
    insertRunsIgnoreConflicts
      (if keyPresent db r.idempotency_key then db
       else
         { db with
           flow_runs := db.flow_runs ++ [{ run := r, state_id := none }] })
      rest := rfl

/-- Skeleton of the batch insert: it touches nothing but `flow_runs`, and it
only appends rows, each a stateless row for one of the candidates. -/
theorem insertRuns_skeleton :
    ∀ (runs : List FlowRun) (db : DB),
      (insertRunsIgnoreConflicts db runs).deployments = db.deployments ∧
      (insertRunsIgnoreConflicts db runs).flow_run_states =
        db.flow_run_states ∧
      (insertRunsIgnoreConflicts db runs).next_id = db.next_id ∧
      ∃ new,
        (insertRunsIgnoreConflicts db runs).flow_runs = db.flow_runs ++ new ∧
        ∀ row ∈ new, row.state_id = none ∧ row.run ∈ runs := by
  intro runs
  induction runs with
  | nil =>
    intro db
    exact ⟨rfl, rfl, rfl, [], by simp [insertRunsIgnoreConflicts], by simp⟩
  | cons r rest ih =>
    intro db
    show (insertRunsIgnoreConflicts _ rest).deployments = _ ∧ _
    cases hk : keyPresent db r.idempotency_key with
    | true =>
      simp only [insertRunsIgnoreConflicts, List.foldl_cons, hk, if_true]
      obtain ⟨h1, h2, h3, new, h4, h5⟩ := ih db
      exact ⟨h1, h2, h3, new, h4, fun row hr =>
        ⟨(h5 row hr).1, List.mem_cons_of_mem _ (h5 row hr).2⟩⟩
    | false =>
      simp only [insertRunsIgnoreConflicts, List.foldl_cons, hk,
        Bool.false_eq_true, if_false]
      obtain ⟨h1, h2, h3, new, h4, h5⟩ :=
        ih { db with flow_runs := db.flow_runs ++ [{ run := r, state_id := none }] }
      refine ⟨h1, h2, h3, { run := r, state_id := none } :: new, ?_, ?_⟩
      · simpa [List.append_assoc] using h4
      · intro row hr
        rw [List.mem_cons] at hr
        rcases hr with rfl | hr
        · exact ⟨rfl, by simp⟩
        · exact ⟨(h5 row hr).1, List.mem_cons_of_mem _ (h5 row hr).2⟩

/-- Keys present before the batch insert are still present afterwards. -/
theorem keyPresent_insertRuns_mono {db : DB} {runs : List FlowRun} {k : String}
    (h : keyPresent db k = true) :
    keyPresent (insertRunsIgnoreConflicts db runs) k = true := by
  obtain ⟨_, _, _, new, h4, _⟩ := insertRuns_skeleton runs db
  simp only [keyPresent, anyKey, h4, List.any_append]
  simp only [keyPresent, anyKey] at h
  simp [h]

/-- After the batch insert, every candidate's key is present: either it was
present already, or the candidate's own row was appended. -/
theorem keyPresent_insertRuns_self :
    ∀ (runs : List FlowRun) (db : DB) (r : FlowRun), r ∈ runs →
      keyPresent (insertRunsIgnoreConflicts db runs) r.idempotency_key = true := by
  intro runs
  induction runs with
  | nil => intro db r hr; cases hr
  | cons r0 rest ih =>
    intro db r hr
    rw [List.mem_cons] at hr
    cases hk : keyPresent db r0.idempotency_key with
    | true =>
      simp only [insertRunsIgnoreConflicts, List.foldl_cons, hk, if_true]
      rcases hr with rfl | hr
      · exact keyPresent_insertRuns_mono hk
      · exact ih db r hr
    | false =>
      simp only [insertRunsIgnoreConflicts, List.foldl_cons, hk,
        Bool.false_eq_true, if_false]
      rcases hr with rfl | hr
      · refine keyPresent_insertRuns_mono ?_
        simp [keyPresent, anyKey]
      · exact ih _ r hr

/-- When every candidate's key is already present, the batch insert is a
no-op on the store. -/
theorem insertRuns_no_change :
    ∀ (runs : List FlowRun) (db : DB),
      (∀ r ∈ runs, keyPresent db r.idempotency_key = true) →
      insertRunsIgnoreConflicts db runs = db := by
  intro runs
  induction runs with
  | nil => intro db _; rfl
  | cons r0 rest ih =>
    intro db h
    have hk : keyPresent db r0.idempotency_key = true := h r0 (by simp)
    simp only [insertRunsIgnoreConflicts, List.foldl_cons, hk, if_true]
    exact ih db (fun r hr => h r (List.mem_cons_of_mem _ hr))

/-- A candidate at the head of the batch whose key is absent gets its row
appended (stateless, the run preserved unchanged). -/
theorem insertRuns_head_inserted {db : DB} {r0 : FlowRun}
    {rest : List FlowRun} (h : keyPresent db r0.idempotency_key = false) :
    ∃ row ∈ (insertRunsIgnoreConflicts db (r0 :: rest)).flow_runs,
      row.run = r0 ∧ row.state_id = none := by
  rw [insertRuns_cons, if_neg (by simp [h])]
  obtain ⟨_, _, _, new, h4, _⟩ := insertRuns_skeleton rest
    { db with flow_runs := db.flow_runs ++ [{ run := r0, state_id := none }] }
  refine ⟨{ run := r0, state_id := none }, ?_, rfl, rfl⟩
  rw [h4]
  simp

/-! ### Properties of the probe, the state rows and the pointer update -/

/-- Membership in the probe result: exactly the stored run ids, among the
candidate ids, that no state row references. -/
theorem mem_runsWithoutState {db : DB} {ids : List Nat} {a : Nat} :
    a ∈ runsWithoutState db ids ↔
      ∃ row ∈ db.flow_runs, row.run.id = a ∧ a ∈ ids ∧
        ∀ s ∈ db.flow_run_states, ¬s.flow_run_id = a := by
  constructor
  · intro h
    rw [runsWithoutState, List.mem_map] at h
    obtain ⟨row, hrow, hid⟩ := h
    rw [List.mem_filter] at hrow
    obtain ⟨hmem, hpred⟩ := hrow
    simp only [Bool.and_eq_true, Bool.not_eq_true', List.any_eq_false,
      beq_iff_eq] at hpred
    refine ⟨row, hmem, hid, ?_, ?_⟩
    · have := hpred.1
      rw [hid] at this
      simpa using this
    · intro s hs
      rw [← hid]
      exact hpred.2 s hs
  · rintro ⟨row, hmem, hid, hin, hnost⟩
    rw [runsWithoutState, List.mem_map]
    refine ⟨row, ?_, hid⟩
    rw [List.mem_filter]
    refine ⟨hmem, ?_⟩
    simp only [Bool.and_eq_true, Bool.not_eq_true', List.any_eq_false,
      beq_iff_eq]
    exact ⟨by rw [hid]; simpa using hin, fun s hs => hid ▸ hnost s hs⟩

/-- Every candidate reported by the probe receives a state row carrying its
own state payload. -/
theorem mkStateRows_exists :
    ∀ (runs : List FlowRun) (n : Nat) (ins : List Nat) (r : FlowRun),
      r ∈ runs → ins.contains r.id = true →
      ∃ s ∈ mkStateRows n runs ins, s.flow_run_id = r.id ∧
        s.payload = r.state := by
  intro runs
  induction runs with
  | nil => intro n ins r hr; cases hr
  | cons r0 rest ih =>
    intro n ins r hr hc
    rw [List.mem_cons] at hr
    cases h0 : ins.contains r0.id with
    | true =>
      simp only [mkStateRows, h0, if_true]
      rcases hr with rfl | hr
      · exact ⟨⟨n, r.id, r.state⟩, by simp, rfl, rfl⟩
      · obtain ⟨s, hs, h1, h2⟩ := ih (n + 1) ins r hr hc
        exact ⟨s, by simp [hs], h1, h2⟩
    | false =>
      simp only [mkStateRows, h0, Bool.false_eq_true, if_false]
      rcases hr with rfl | hr
      · rw [hc] at h0; cases h0
      · exact ih n ins r hr hc

/-- Every state row written comes from one of the candidates the probe
reported, and carries that candidate's payload. -/
theorem mkStateRows_sound :
    ∀ (runs : List FlowRun) (n : Nat) (ins : List Nat) (s : FlowRunStateRow),
      s ∈ mkStateRows n runs ins →
      ∃ r ∈ runs, ins.contains r.id = true ∧ s.flow_run_id = r.id ∧
        s.payload = r.state := by
  intro runs
  induction runs with
  | nil => intro n ins s hs; cases hs
  | cons r0 rest ih =>
    intro n ins s hs
    cases h0 : ins.contains r0.id with
    | true =>
      simp only [mkStateRows, h0, if_true] at hs
      rw [List.mem_cons] at hs
      rcases hs with rfl | hs
      · exact ⟨r0, by simp, h0, rfl, rfl⟩
      · obtain ⟨r, hr, h1, h2, h3⟩ := ih (n + 1) ins s hs
        exact ⟨r, by simp [hr], h1, h2, h3⟩
    | false =>
      simp only [mkStateRows, h0, Bool.false_eq_true, if_false] at hs
      obtain ⟨r, hr, h1, h2, h3⟩ := ih n ins s hs
      exact ⟨r, by simp [hr], h1, h2, h3⟩

/-- The fresh ids drawn for state rows lie in the window starting at the
counter value they were drawn from. -/
theorem mkStateRows_id_bounds :
    ∀ (runs : List FlowRun) (n : Nat) (ins : List Nat) (s : FlowRunStateRow),
      s ∈ mkStateRows n runs ins →
      n ≤ s.id ∧ s.id < n + (mkStateRows n runs ins).length := by
  intro runs
  induction runs with
  | nil => intro n ins s hs; cases hs
  | cons r0 rest ih =>
    intro n ins s hs
    cases h0 : ins.contains r0.id with
    | true =>
      simp only [mkStateRows, h0, if_true] at hs ⊢
      rw [List.mem_cons] at hs
      rcases hs with rfl | hs
      · exact ⟨Nat.le_refl _, Nat.lt_succ_of_le (Nat.le_add_right _ _)⟩
      · obtain ⟨h1, h2⟩ := ih (n + 1) ins s hs
        exact ⟨Nat.le_of_succ_le h1, by rw [List.length_cons]; omega⟩
    | false =>
      simp only [mkStateRows, h0, Bool.false_eq_true, if_false] at hs ⊢
      exact ih n ins s hs

/-- The pointer update never changes the run fields of a stored row. -/
theorem setStateId1_run (states : List FlowRunStateRow) (row : FlowRunRow) :
    (setStateId1 states row).run = row.run := by
  unfold setStateId1
  split <;> rfl

/-- The pointer update at a row whose id a state row matches. -/
theorem setStateId1_eq_of_find {states : List FlowRunStateRow}
    {row : FlowRunRow} {s : FlowRunStateRow}
    (h : states.find? (fun x => x.flow_run_id == row.run.id) = some s) :
    setStateId1 states row = { row with state_id := some s.id } := by
  unfold setStateId1
  rw [h]

/-- Key presence is invariant under the pointer update. -/
theorem anyKey_setStateIds (rows : List FlowRunRow)
    (states : List FlowRunStateRow) (k : String) :
    anyKey (setStateIds rows states) k = anyKey rows k := by
  induction rows with
  | nil => rfl
  | cons row rest ih =>
    simp only [anyKey, setStateIds, List.map_cons, List.any_cons,
      setStateId1_run] at ih ⊢
    rw [ih]

/-- The run projections of the table are invariant under the pointer
update. -/
theorem setStateIds_runs (rows : List FlowRunRow)
    (states : List FlowRunStateRow) :
    (setStateIds rows states).map (fun row => row.run) =
      rows.map (fun row => row.run) := by
  induction rows with
  | nil => rfl
  | cons row rest ih =>
    simp only [setStateIds, List.map_cons, setStateId1_run] at ih ⊢
    rw [ih]

/-- `applyStates` never touches the deployments table. -/
theorem applyStates_deployments (db1 : DB) (states : List FlowRunStateRow) :
    (applyStates db1 states).deployments = db1.deployments := by
  unfold applyStates
  split <;> rfl

/-- `applyStates` never lowers the fresh-id counter. -/
theorem applyStates_next_id_le (db1 : DB) (states : List FlowRunStateRow) :
    db1.next_id ≤ (applyStates db1 states).next_id := by
  unfold applyStates
  split
  · exact Nat.le_refl _
  · exact Nat.le_add_right _ _

/-- Key presence in the store is invariant under `applyStates`. -/
theorem keyPresent_applyStates (db1 : DB) (states : List FlowRunStateRow)
    (k : String) :
    keyPresent (applyStates db1 states) k = keyPresent db1 k := by
  unfold applyStates keyPresent
  split
  · rfl
  · exact anyKey_setStateIds _ _ _

/-- When at least one state row is written, they all land in the store. -/
theorem applyStates_mem_states {db1 : DB} {states : List FlowRunStateRow}
    {s : FlowRunStateRow} (hne : states.isEmpty = false) (h : s ∈ states) :
    s ∈ (applyStates db1 states).flow_run_states := by
  unfold applyStates
  rw [hne]
  simp [h]

/-- When at least one state row is written, the stored table is the
pointer-updated one. -/
theorem applyStates_flow_runs {db1 : DB} {states : List FlowRunStateRow}
    (hne : states.isEmpty = false) :
    (applyStates db1 states).flow_runs = setStateIds db1.flow_runs states := by
  unfold applyStates
  rw [hne]
  rfl

/-- Empty candidate input short-circuits the whole persister. -/
theorem insert_sched_nil (db : DB) :
    _insert_scheduled_flow_runs db [] = ([], db) := rfl

/-- The returned runs are exactly the candidates whose ids the probe
reported, in candidate order. -/
theorem insert_sched_fst (db : DB) (runs : List FlowRun) :
    (_insert_scheduled_flow_runs db runs).1 =
      runs.filter (fun r =>
        (runsWithoutState (insertRunsIgnoreConflicts db runs)
          (runs.map (fun r => r.id))).contains r.id) := by
  cases runs with
  | nil => rfl
  | cons r rest => rfl

/-- The store the persister leaves behind, for a non-empty batch. -/
theorem insert_sched_snd {db : DB} {runs : List FlowRun}
    (h : runs.isEmpty = false) :
    (_insert_scheduled_flow_runs db runs).2 =
      applyStates (insertRunsIgnoreConflicts db runs)
        (mkStateRows (insertRunsIgnoreConflicts db runs).next_id runs
          (runsWithoutState (insertRunsIgnoreConflicts db runs)
            (runs.map (fun r => r.id)))) := by
  cases runs with
  | nil => simp at h
  | cons r rest => rfl

/-! ### Freshness of identifiers through the pipeline -/

/-- Propositional reading of the id-freshness invariant. -/
theorem freshIds_iff {db : DB} :
    db.freshIds = true ↔
      (∀ row ∈ db.flow_runs, row.run.id < db.next_id) ∧
      (∀ s ∈ db.flow_run_states,
        s.flow_run_id < db.next_id ∧ s.id < db.next_id) := by
  simp [DB.freshIds, List.all_eq_true, Bool.and_eq_true, decide_eq_true_eq,
    forall_and]

/-- Output shape of the generator: consecutive fresh ids, no writes, the
counter advanced by exactly the number of runs. -/
theorem generate_out {db : DB} {did start stop maxR : Nat}
    {runs : List FlowRun} {db' : DB}
    (h : _generate_scheduled_flow_runs db did start stop maxR =
      .ok (runs, db')) :
    runs.map (fun r => r.id) = List.range' db.next_id runs.length ∧
    db'.deployments = db.deployments ∧
    db'.flow_runs = db.flow_runs ∧
    db'.flow_run_states = db.flow_run_states ∧
    db'.next_id = db.next_id + runs.length := by
  rcases generate_inv h with ⟨rfl, rfl⟩ | ⟨d, sched, _, _, _, hb, rfl⟩
  · exact ⟨rfl, rfl, rfl, rfl, rfl⟩
  · obtain ⟨hlen, hids, _, _, _⟩ := buildRuns_ok hb
    exact ⟨by rw [hids, hlen], rfl, rfl, rfl, by rw [hlen]⟩

/-- Bounds on the generated run ids. -/
theorem generate_id_bounds {db : DB} {did start stop maxR : Nat}
    {runs : List FlowRun} {db' : DB}
    (h : _generate_scheduled_flow_runs db did start stop maxR =
      .ok (runs, db')) :
    ∀ r ∈ runs, db.next_id ≤ r.id ∧ r.id < db.next_id + runs.length := by
  intro r hr
  have hids := (generate_out h).1
  have : r.id ∈ List.range' db.next_id runs.length := by
    rw [← hids]
    exact List.mem_map_of_mem _ hr
  exact List.mem_range'_1.mp this

/-- The generated run ids are pairwise distinct. -/
theorem generate_ids_nodup {db : DB} {did start stop maxR : Nat}
    {runs : List FlowRun} {db' : DB}
    (h : _generate_scheduled_flow_runs db did start stop maxR =
      .ok (runs, db')) :
    (runs.map (fun r => r.id)).Nodup := by
  rw [(generate_out h).1]
  exact List.nodup_range' _ _

/-- The generator preserves the freshness invariant. -/
theorem generate_fresh {db : DB} {did start stop maxR : Nat}
    {runs : List FlowRun} {db' : DB} (hfresh : db.freshIds = true)
    (h : _generate_scheduled_flow_runs db did start stop maxR =
      .ok (runs, db')) :
    db'.freshIds = true := by
  obtain ⟨_, _, hr, hs, hn⟩ := generate_out h
  rw [freshIds_iff] at hfresh ⊢
  rw [hr, hs, hn]
  refine ⟨fun row hrow => ?_, fun s hsmem => ?_⟩
  · exact Nat.lt_of_lt_of_le (hfresh.1 row hrow) (Nat.le_add_right _ _)
  · obtain ⟨h1, h2⟩ := hfresh.2 s hsmem
    exact ⟨Nat.lt_of_lt_of_le h1 (Nat.le_add_right _ _),
      Nat.lt_of_lt_of_le h2 (Nat.le_add_right _ _)⟩

/-- The persister preserves the freshness invariant when the batch's run
ids were drawn below the counter, and never lowers the counter. -/
theorem insert_sched_fresh {db : DB} {runs : List FlowRun}
    (hfresh : db.freshIds = true)
    (hruns : ∀ r ∈ runs, r.id < db.next_id) :
    (_insert_scheduled_flow_runs db runs).2.freshIds = true ∧
    db.next_id ≤ (_insert_scheduled_flow_runs db runs).2.next_id := by
  cases hempty : runs.isEmpty with
  | true =>
    cases runs with
    | nil => exact ⟨hfresh, Nat.le_refl _⟩
    | cons r rest => simp at hempty
  | false =>
    rw [insert_sched_snd hempty]
    obtain ⟨hd, hst, hn, new, hfr, hnew⟩ := insertRuns_skeleton runs db
    set db1 := insertRunsIgnoreConflicts db runs with hdb1
    have hdb1fresh : db1.freshIds = true := by
      rw [freshIds_iff] at hfresh ⊢
      rw [hfr, hst, hn]
      refine ⟨fun row hrow => ?_, hfresh.2⟩
      rw [List.mem_append] at hrow
      rcases hrow with hrow | hrow
      · exact hfresh.1 row hrow
      · exact hruns _ (hnew row hrow).2
    have hruns1 : ∀ r ∈ runs, r.id < db1.next_id := by
      rw [hn]; exact hruns
    set states := mkStateRows db1.next_id runs
      (runsWithoutState db1 (runs.map (fun r => r.id))) with hstates
    cases hse : states.isEmpty with
    | true =>
      unfold applyStates
      rw [hse, if_pos rfl]
      exact ⟨hdb1fresh, by rw [hn]⟩
    | false =>
      unfold applyStates
      rw [hse]
      simp only [Bool.false_eq_true, if_false]
      constructor
      · rw [freshIds_iff]
        rw [freshIds_iff] at hdb1fresh
        constructor
        · intro row hrow
          simp only [setStateIds, List.mem_map] at hrow
          obtain ⟨row0, hrow0, rfl⟩ := hrow
          rw [setStateId1_run]
          exact Nat.lt_of_lt_of_le (hdb1fresh.1 row0 hrow0)
            (Nat.le_add_right _ _)
        · intro s hsmem
          simp only [List.mem_append] at hsmem
          rcases hsmem with hsmem | hsmem
          · obtain ⟨h1, h2⟩ := hdb1fresh.2 s hsmem
            exact ⟨Nat.lt_of_lt_of_le h1 (Nat.le_add_right _ _),
              Nat.lt_of_lt_of_le h2 (Nat.le_add_right _ _)⟩
          · constructor
            · obtain ⟨r, hrmem, _, hfid, _⟩ :=
                mkStateRows_sound runs db1.next_id _ s hsmem
              rw [hfid]
              exact Nat.lt_of_lt_of_le (hruns1 r hrmem)
                (Nat.le_add_right _ _)
            · exact (mkStateRows_id_bounds runs db1.next_id _ s hsmem).2
      · rw [hn]
        exact Nat.le_trans (Nat.le_add_right _ _) (Nat.le_refl _)

/-- Unfolding of the orchestrator on a successful generation. -/
theorem schedule_runs_eq {cfg : Config} {now : Nat} {db : DB} {did : Nat}
    {st et mr : Option Nat} {gen : List FlowRun × DB}
    (hg : _generate_scheduled_flow_runs db did (st.getD now)
      (et.getD (st.getD now + cfg.scheduler_max_scheduled_time))
      (mr.getD cfg.scheduler_max_runs) = .ok gen) :
    schedule_runs cfg now db did st et mr =
      .ok (_insert_scheduled_flow_runs gen.2 gen.1) := by
  unfold schedule_runs
  rw [hg]

/-- Unfolding of the orchestrator on a failed generation: the error is
surfaced and nothing more runs. -/
theorem schedule_runs_err {cfg : Config} {now : Nat} {db : DB} {did : Nat}
    {st et mr : Option Nat} {e : SchedulerError}
    (hg : _generate_scheduled_flow_runs db did (st.getD now)
      (et.getD (st.getD now + cfg.scheduler_max_scheduled_time))
      (mr.getD cfg.scheduler_max_runs) = .error e) :
    schedule_runs cfg now db did st et mr = .error e := by
  unfold schedule_runs
  rw [hg]

/-- Successful orchestration preserves the freshness invariant and never
lowers the fresh-id counter. -/
theorem schedule_runs_fresh {cfg : Config} {now : Nat} {db : DB} {did : Nat}
    {st et mr : Option Nat} {res : List FlowRun} {db' : DB}
    (hfresh : db.freshIds = true)
    (h : schedule_runs cfg now db did st et mr = .ok (res, db')) :
    db'.freshIds = true ∧ db.next_id ≤ db'.next_id := by
  unfold schedule_runs at h
  cases hg : _generate_scheduled_flow_runs db did (st.getD now)
      (et.getD (st.getD now + cfg.scheduler_max_scheduled_time))
      (mr.getD cfg.scheduler_max_runs) with
  | error e => rw [hg] at h; exact Except.noConfusion h
  | ok gen =>
    rw [hg] at h
    simp only [Except.ok.injEq] at h
    obtain ⟨hids, _, _, _, hn⟩ := generate_out hg
    have hgfresh : gen.2.freshIds = true := generate_fresh hfresh hg
    have hbound : ∀ r ∈ gen.1, r.id < gen.2.next_id := by
      intro r hr
      rw [hn]
      exact (generate_id_bounds hg r hr).2
    obtain ⟨hf, hle⟩ := insert_sched_fresh hgfresh hbound
    have hdb2 : (_insert_scheduled_flow_runs gen.2 gen.1).2 = db' := by
      rw [h]
    rw [← hdb2]
    refine ⟨hf, Nat.le_trans ?_ hle⟩
    rw [hn]
    exact Nat.le_add_right _ _

/-! ### Composite lemmas about the persister and the orchestrator -/

/-- With a `flow_id` present, building runs never fails. -/
theorem buildRuns_total {d : Deployment} {fid : Nat}
    (hf : d.flow_id = some fid) (did : Nat) :
    ∀ (dates : List Nat) (n : Nat), ∃ rs, buildRuns d did dates n = .ok rs := by
  intro dates
  induction dates with
  | nil => exact fun n => ⟨[], rfl⟩
  | cons t rest ih =>
    intro n
    obtain ⟨rs, hrs⟩ := ih (n + 1)
    cases hb : buildRun d did t n with
    | error e => simp [buildRun, hf] at hb
    | ok r => exact ⟨r :: rs, by simp only [buildRuns, hb, hrs]⟩

/-- The persister never touches the deployments table. -/
theorem insert_sched_deployments (db : DB) (runs : List FlowRun) :
    (_insert_scheduled_flow_runs db runs).2.deployments = db.deployments := by
  cases hempty : runs.isEmpty with
  | true =>
    cases runs with
    | nil => rfl
    | cons r rest => simp at hempty
  | false =>
    rw [insert_sched_snd hempty, applyStates_deployments]
    exact (insertRuns_skeleton runs db).1

/-- After the persister runs, every candidate's key is present in the
store. -/
theorem insert_sched_keyPresent {db : DB} {runs : List FlowRun} {r : FlowRun}
    (hr : r ∈ runs) :
    keyPresent (_insert_scheduled_flow_runs db runs).2 r.idempotency_key =
      true := by
  cases hempty : runs.isEmpty with
  | true =>
    cases runs with
    | nil => cases hr
    | cons r0 rest => simp at hempty
  | false =>
    rw [insert_sched_snd hempty, keyPresent_applyStates]
    exact keyPresent_insertRuns_self runs db r hr

/-- A head candidate whose key is absent and whose id no state row
references is returned by the persister. -/
theorem insert_sched_head_mem {db : DB} {r0 : FlowRun} {rest : List FlowRun}
    (hkey : keyPresent db r0.idempotency_key = false)
    (hnostate : ∀ s ∈ db.flow_run_states, ¬s.flow_run_id = r0.id) :
    r0 ∈ (_insert_scheduled_flow_runs db (r0 :: rest)).1 := by
  rw [insert_sched_fst, List.mem_filter]
  refine ⟨by simp, ?_⟩
  obtain ⟨row, hrowmem, hrowrun, _⟩ := insertRuns_head_inserted hkey
  have hmem : r0.id ∈ runsWithoutState (insertRunsIgnoreConflicts db (r0 :: rest))
      ((r0 :: rest).map (fun r => r.id)) := by
    rw [mem_runsWithoutState]
    refine ⟨row, hrowmem, by rw [hrowrun], by simp, ?_⟩
    intro s hs
    have hstates := (insertRuns_skeleton (r0 :: rest) db).2.1
    rw [hstates] at hs
    exact hnostate s hs
  simpa using hmem

/-- When every candidate's key is already present and no candidate id is
already stored, the persister returns nothing. -/
theorem insert_sched_all_conflict {db : DB} {runs : List FlowRun}
    (hkeys : ∀ r ∈ runs, keyPresent db r.idempotency_key = true)
    (hids : ∀ r ∈ runs, ∀ row ∈ db.flow_runs, ¬row.run.id = r.id) :
    (_insert_scheduled_flow_runs db runs).1 = [] := by
  rw [insert_sched_fst]
  rw [List.filter_eq_nil_iff]
  intro r hr hcont
  have hmem : r.id ∈ runsWithoutState (insertRunsIgnoreConflicts db runs)
      (runs.map (fun x => x.id)) := by simpa using hcont
  rw [mem_runsWithoutState] at hmem
  obtain ⟨row, hrowmem, hrowid, _, _⟩ := hmem
  rw [insertRuns_no_change runs db hkeys] at hrowmem
  exact hids r hr row hrowmem hrowid

/-- Core linking property of the persister: assuming pairwise distinct
candidate ids, every returned run has a state row carrying its payload, and
a stored row whose pointer references that state row. -/
theorem insert_sched_links {db : DB} {runs : List FlowRun}
    (hnd : (runs.map (fun r => r.id)).Nodup) :
    ∀ r ∈ (_insert_scheduled_flow_runs db runs).1,
      ∃ s ∈ (_insert_scheduled_flow_runs db runs).2.flow_run_states,
        s.flow_run_id = r.id ∧ s.payload = r.state ∧
        ∃ row ∈ (_insert_scheduled_flow_runs db runs).2.flow_runs,
          row.run.id = r.id ∧ row.state_id = some s.id := by
  intro r hr
  have hempty : runs.isEmpty = false := by
    cases runs with
    | nil => rw [insert_sched_nil] at hr; cases hr
    | cons a l => rfl
  have hrf := hr
  rw [insert_sched_fst, List.mem_filter] at hrf
  obtain ⟨hrmem, hcont⟩ := hrf
  have hrin : r.id ∈ runsWithoutState (insertRunsIgnoreConflicts db runs)
      (runs.map (fun x => x.id)) := by simpa using hcont
  obtain ⟨s0, hs0mem, hs0id, hs0pay⟩ :=
    mkStateRows_exists runs (insertRunsIgnoreConflicts db runs).next_id
      (runsWithoutState (insertRunsIgnoreConflicts db runs)
        (runs.map (fun x => x.id))) r hrmem hcont
  have hstates_ne : (mkStateRows (insertRunsIgnoreConflicts db runs).next_id
      runs (runsWithoutState (insertRunsIgnoreConflicts db runs)
        (runs.map (fun x => x.id)))).isEmpty = false := by
    cases hx : (mkStateRows (insertRunsIgnoreConflicts db runs).next_id runs
        (runsWithoutState (insertRunsIgnoreConflicts db runs)
          (runs.map (fun x => x.id)))).isEmpty with
    | false => rfl
    | true =>
      rw [List.isEmpty_iff] at hx
      rw [hx] at hs0mem
      cases hs0mem
  have hfindsome : (List.find? (fun x => x.flow_run_id == r.id)
      (mkStateRows (insertRunsIgnoreConflicts db runs).next_id runs
        (runsWithoutState (insertRunsIgnoreConflicts db runs)
          (runs.map (fun x => x.id))))).isSome = true :=
    List.find?_isSome.mpr ⟨s0, hs0mem, by simp [hs0id]⟩
  obtain ⟨s, hsfind⟩ := Option.isSome_iff_exists.mp hfindsome
  have hsmem := List.mem_of_find?_eq_some hsfind
  have hsid : s.flow_run_id = r.id := by
    have := List.find?_some hsfind
    simpa using this
  obtain ⟨r2, hr2mem, _, hid2, hpay2⟩ :=
    mkStateRows_sound runs (insertRunsIgnoreConflicts db runs).next_id _ s
      hsmem
  have hr2eq : r2 = r :=
    List.inj_on_of_nodup_map hnd hr2mem hrmem (by rw [← hid2, hsid])
  subst hr2eq
  rw [mem_runsWithoutState] at hrin
  obtain ⟨row0, hrow0mem, hrow0id, _, _⟩ := hrin
  have hrowfind : (mkStateRows (insertRunsIgnoreConflicts db runs).next_id
      runs (runsWithoutState (insertRunsIgnoreConflicts db runs)
        (runs.map (fun x => x.id)))).find?
      (fun x => x.flow_run_id == row0.run.id) = some s := by
    rw [hrow0id]
    exact hsfind
  refine ⟨s, ?_, hsid, hpay2,
    setStateId1 (mkStateRows (insertRunsIgnoreConflicts db runs).next_id runs
      (runsWithoutState (insertRunsIgnoreConflicts db runs)
        (runs.map (fun x => x.id)))) row0, ?_, ?_, ?_⟩
  · rw [insert_sched_snd hempty]
    exact applyStates_mem_states hstates_ne hsmem
  · rw [insert_sched_snd hempty, applyStates_flow_runs hstates_ne]
    exact List.mem_map_of_mem _ hrow0mem
  · rw [setStateId1_run]
    exact hrow0id
  · rw [setStateId1_eq_of_find hrowfind]

/-- The orchestrator never touches the deployments table. -/
theorem schedule_runs_deployments {cfg : Config} {now : Nat} {db : DB}
    {did : Nat} {st et mr : Option Nat} {res : List FlowRun} {db' : DB}
    (h : schedule_runs cfg now db did st et mr = .ok (res, db')) :
    db'.deployments = db.deployments := by
  unfold schedule_runs at h
  cases hg : _generate_scheduled_flow_runs db did (st.getD now)
      (et.getD (st.getD now + cfg.scheduler_max_scheduled_time))
      (mr.getD cfg.scheduler_max_runs) with
  | error e => rw [hg] at h; exact Except.noConfusion h
  | ok gen =>
    rw [hg] at h
    simp only [Except.ok.injEq] at h
    have h2 : (_insert_scheduled_flow_runs gen.2 gen.1).2 = db' := by rw [h]
    rw [← h2, insert_sched_deployments]
    exact (generate_out (show _generate_scheduled_flow_runs db did _ _ _ =
      .ok (gen.1, gen.2) by rw [hg])).2.1

/-- Any row the batch insert appended had its key absent from the original
store: a conflicting candidate is never written. -/
theorem insertRuns_new_key_absent :
    ∀ (runs : List FlowRun) (db : DB) (row : FlowRunRow),
      row ∈ (insertRunsIgnoreConflicts db runs).flow_runs →
      row ∉ db.flow_runs →
      keyPresent db row.run.idempotency_key = false := by
  intro runs
  induction runs with
  | nil =>
    intro db row hmem hnot
    exact absurd hmem hnot
  | cons r rest ih =>
    intro db row hmem hnot
    rw [insertRuns_cons] at hmem
    cases hk : keyPresent db r.idempotency_key with
    | true =>
      rw [hk, if_pos rfl] at hmem
      exact ih db row hmem hnot
    | false =>
      rw [hk, if_neg (by simp)] at hmem
      by_cases hcase : row ∈ ({ db with
          flow_runs := db.flow_runs ++ [{ run := r, state_id := none }] } :
          DB).flow_runs
      · have : row = { run := r, state_id := none } := by
          simp only [List.mem_append, List.mem_singleton] at hcase
          rcases hcase with hcase | hcase
          · exact absurd hcase hnot
          · exact hcase
        rw [this]
        exact hk
      · have := ih _ row hmem hcase
        simp only [keyPresent, anyKey, List.any_append, Bool.or_eq_false_iff]
          at this
        exact this.1

/-! ### Claim theorems -/

/-- C9: invoked with an empty list of candidates, the batch persister
returns an empty list and leaves the store untouched — no insert, no probe,
no state write. -/
theorem C9_persister_empty_noop (db : DB) :
    _insert_scheduled_flow_runs db [] = ([], db) := rfl

/-- C4: if the deployment does not exist, or its schedule is absent, or
`is_schedule_active` is false, then `schedule_runs` returns an empty list
(not an error) and the store is unchanged — no write to the run or state
stores. -/
theorem C4_short_circuit (cfg : Config) (now : Nat) (db : DB) (did : Nat)
    (st et mr : Option Nat)
    (h : db.deployments.find? (fun d => d.id == did) = none ∨
      ∃ d, db.deployments.find? (fun d => d.id == did) = some d ∧
        (d.schedule = none ∨ d.is_schedule_active = false)) :
    schedule_runs cfg now db did st et mr = .ok ([], db) := by
  have hgen : _generate_scheduled_flow_runs db did (st.getD now)
      (et.getD (st.getD now + cfg.scheduler_max_scheduled_time))
      (mr.getD cfg.scheduler_max_runs) = .ok ([], db) := by
    rcases h with hnone | ⟨d, hfind, hcase⟩
    · simp [_generate_scheduled_flow_runs, hnone]
    · rcases hcase with hs | ha
      · simp [_generate_scheduled_flow_runs, hfind, hs]
      · cases hsched : d.schedule with
        | none => simp [_generate_scheduled_flow_runs, hfind, hsched]
        | some sc =>
          simp [_generate_scheduled_flow_runs, hfind, hsched, ha]
  rw [schedule_runs_eq hgen]
  rfl

/-- Witness for C4 at a concrete store: deployment 2 does not exist in
`db1ex`. -/
theorem C4_short_circuit_witness :
    schedule_runs cfg1 0 db1ex 2 none none none = .ok ([], db1ex) :=
  C4_short_circuit cfg1 0 db1ex 2 none none none (Or.inl rfl)

/-- C5: the idempotency key of a built candidate is a pure deterministic
function of the deployment identity and the scheduled timestamp — two
builds for the same deployment id and timestamp yield the identical key,
whatever the other deployment fields, the `deployment_id` argument, or the
fresh id drawn. -/
theorem C5_key_deterministic (d1 d2 : Deployment) (did1 did2 date i j : Nat)
    (r1 r2 : FlowRun) (hid : d1.id = d2.id)
    (h1 : buildRun d1 did1 date i = .ok r1)
    (h2 : buildRun d2 did2 date j = .ok r2) :
    r1.idempotency_key = r2.idempotency_key ∧
    r1.idempotency_key = idempotencyKey d1.id date := by
  have k1 := (buildRun_ok h1).2.2.2.2.1
  have k2 := (buildRun_ok h2).2.2.2.2.1
  rw [k1, k2, hid]
  exact ⟨rfl, rfl⟩

/-- Witness for C5 at concrete inputs: two builds from `dep1` at date 5
under different fresh ids and `deployment_id` arguments. -/
theorem C5_key_deterministic_witness :
    runW1.idempotency_key = runW2.idempotency_key ∧
    runW1.idempotency_key = idempotencyKey dep1.id 5 :=
  C5_key_deterministic dep1 dep1 1 2 5 10 20 runW1 runW2 rfl rfl rfl

/-- C7: a built candidate's tags are, as a set, `{"auto-scheduled"}` union
the deployment's tags; its `flow_id` and `parameters` are copied from the
deployment; its id is the fresh identifier drawn for it; and persistence
preserves the candidate unchanged — every run the persister returns is one
of its input candidates. -/
theorem C7_candidate_fields (d : Deployment) (did date i : Nat) (r : FlowRun)
    (h : buildRun d did date i = .ok r) :
    (∀ x, x ∈ r.tags ↔ (x = "auto-scheduled" ∨ x ∈ d.tags)) ∧
    d.flow_id = some r.flow_id ∧
    r.parameters = d.parameters ∧
    r.id = i ∧
    (∀ (dates : List Nat) (n : Nat) (rs : List FlowRun),
      buildRuns d did dates n = .ok rs → (rs.map (fun x => x.id)).Nodup) ∧
    (∀ (db : DB) (runs : List FlowRun),
      r ∈ (_insert_scheduled_flow_runs db runs).1 → r ∈ runs) := by
  obtain ⟨hflow, hid, _, hpar, _, htags, _, _, _, _, _⟩ := buildRun_ok h
  refine ⟨?_, hflow, hpar, hid, ?_, ?_⟩
  · intro x
    rw [htags]
    exact List.mem_cons
  · intro dates n rs hrs
    rw [(buildRuns_ok hrs).2.1]
    exact List.nodup_range' _ _
  · intro db runs hr
    rw [insert_sched_fst] at hr
    exact List.mem_of_mem_filter hr

/-- Witness for C7: the candidate `runW1` built from `dep1` at date 5. -/
theorem C7_candidate_fields_witness :
    (∀ x, x ∈ runW1.tags ↔ (x = "auto-scheduled" ∨ x ∈ dep1.tags)) ∧
    dep1.flow_id = some runW1.flow_id ∧
    runW1.parameters = dep1.parameters ∧
    runW1.id = 10 ∧
    (∀ (dates : List Nat) (n : Nat) (rs : List FlowRun),
      buildRuns dep1 1 dates n = .ok rs → (rs.map (fun x => x.id)).Nodup) ∧
    (∀ (db : DB) (runs : List FlowRun),
      runW1 ∈ (_insert_scheduled_flow_runs db runs).1 → runW1 ∈ runs) :=
  C7_candidate_fields dep1 1 5 10 runW1 rfl

/-- C8: for a deployment snapshot lacking a `flow_id`, the candidate
builder fails with `InvalidDeploymentState` at every timestamp; and
whenever orchestration reaches the builder (deployment found, schedule
active, at least one date), the invocation aborts with that error — in the
model the error result carries no store, so nothing was written. -/
theorem C8_missing_flow_id (d : Deployment) (did : Nat)
    (h : d.flow_id = none) :
    (∀ date i, buildRun d did date i = .error .invalidDeploymentState) ∧
    ∀ (cfg : Config) (now : Nat) (db : DB) (st et mr : Option Nat)
      (sched : Schedule),
      db.deployments.find? (fun x => x.id == did) = some d →
      d.schedule = some sched →
      d.is_schedule_active = true →
      sched.getDates (mr.getD cfg.scheduler_max_runs) (st.getD now)
        (et.getD (st.getD now + cfg.scheduler_max_scheduled_time)) ≠ [] →
      schedule_runs cfg now db did st et mr =
        .error .invalidDeploymentState := by
  refine ⟨fun date i => buildRun_err h, ?_⟩
  intro cfg now db st et mr sched hfind hs ha hne
  apply schedule_runs_err
  cases hd : sched.getDates (mr.getD cfg.scheduler_max_runs) (st.getD now)
      (et.getD (st.getD now + cfg.scheduler_max_scheduled_time)) with
  | nil => exact absurd hd hne
  | cons t rest =>
    simp only [_generate_scheduled_flow_runs, hfind, hs, ha, Bool.not_true,
      Bool.false_eq_true, if_false, hd, buildRuns, buildRun_err h]

/-- Witness for C8: the snapshot `depNoFlow` lacking a `flow_id`, with an
active schedule producing dates. -/
theorem C8_missing_flow_id_witness :
    buildRun depNoFlow 3 0 0 = .error .invalidDeploymentState ∧
    schedule_runs cfg1 0 dbNoFlow 3 (some 0) (some 10) (some 5) =
      .error .invalidDeploymentState :=
  ⟨(C8_missing_flow_id depNoFlow 3 rfl).1 0 0,
   (C8_missing_flow_id depNoFlow 3 rfl).2 cfg1 0 dbNoFlow (some 0) (some 10)
     (some 5) sched3 rfl rfl rfl (by decide)⟩

/-- C2: the batch persister returns exactly the subset of input candidates
whose ids, after the conflict-ignoring batch insert, the stateless probe
reports; and a candidate with a fresh id whose idempotency key is already
carried by a stored run is excluded — at-most-once materialisation per
key. -/
theorem C2_persister_probe_subset (db : DB) (runs : List FlowRun) :
    (_insert_scheduled_flow_runs db runs).1 =
      runs.filter (fun r =>
        (runsWithoutState (insertRunsIgnoreConflicts db runs)
          (runs.map (fun x => x.id))).contains r.id) ∧
    ∀ r ∈ runs,
      (runs.map (fun x => x.id)).Nodup →
      (∀ row ∈ db.flow_runs, ¬row.run.id = r.id) →
      keyPresent db r.idempotency_key = true →
      r ∉ (_insert_scheduled_flow_runs db runs).1 := by
  refine ⟨insert_sched_fst db runs, ?_⟩
  intro r hr hnd hfreshid hkey hmem
  rw [insert_sched_fst, List.mem_filter] at hmem
  obtain ⟨_, hcont⟩ := hmem
  have hin : r.id ∈ runsWithoutState (insertRunsIgnoreConflicts db runs)
      (runs.map (fun x => x.id)) := by simpa using hcont
  rw [mem_runsWithoutState] at hin
  obtain ⟨row, hrowmem, hrowid, _, _⟩ := hin
  have hrownot : row ∉ db.flow_runs := fun hcon => hfreshid row hcon hrowid
  have hkeyabs := insertRuns_new_key_absent runs db row hrowmem hrownot
  obtain ⟨_, _, _, new, hfr, hnew⟩ := insertRuns_skeleton runs db
  rw [hfr, List.mem_append] at hrowmem
  rcases hrowmem with hcon | hnewmem
  · exact hfreshid row hcon hrowid
  · have hrun_mem : row.run ∈ runs := (hnew row hnewmem).2
    have heq : row.run = r := List.inj_on_of_nodup_map hnd hrun_mem hr hrowid
    rw [heq, hkey] at hkeyabs
    exact Bool.noConfusion hkeyabs

/-- Witness for C2: the candidate `runW1` collides on key with the stored
`runOld` (which has a linked state), so the persister excludes it. -/
theorem C2_persister_probe_subset_witness :
    ((_insert_scheduled_flow_runs dbC2ex [runW1]).1 =
      [runW1].filter (fun r =>
        (runsWithoutState (insertRunsIgnoreConflicts dbC2ex [runW1])
          ([runW1].map (fun x => x.id))).contains r.id)) ∧
    runW1 ∉ (_insert_scheduled_flow_runs dbC2ex [runW1]).1 :=
  ⟨(C2_persister_probe_subset dbC2ex [runW1]).1,
   (C2_persister_probe_subset dbC2ex [runW1]).2 runW1 (by decide)
     (by decide) (by decide) (by decide)⟩

/-- C6: assuming the schedule's enumerator returns at most `max_runs`
timestamps, all in `[start_time, end_time)`, every run `schedule_runs`
returns has its scheduled timestamp in that window and the count never
exceeds `max_runs`. -/
theorem C6_window_and_cap (cfg : Config) (now : Nat) (db : DB)
    (did start stop maxR : Nat) (d : Deployment) (sched : Schedule)
    (res : List FlowRun) (db2 : DB)
    (hfind : db.deployments.find? (fun x => x.id == did) = some d)
    (hsched : d.schedule = some sched)
    (hlen : (sched.getDates maxR start stop).length ≤ maxR)
    (hmem : ∀ t ∈ sched.getDates maxR start stop, start ≤ t ∧ t < stop)
    (hrun : schedule_runs cfg now db did (some start) (some stop)
      (some maxR) = .ok (res, db2)) :
    res.length ≤ maxR ∧
    ∀ r ∈ res, start ≤ r.next_scheduled_start_time ∧
      r.next_scheduled_start_time < stop := by
  unfold schedule_runs at hrun
  simp only [Option.getD_some] at hrun
  cases hg : _generate_scheduled_flow_runs db did start stop maxR with
  | error e => rw [hg] at hrun; exact Except.noConfusion hrun
  | ok gen =>
    obtain ⟨runs1, dbg⟩ := gen
    rw [hg] at hrun
    simp only [Except.ok.injEq] at hrun
    have hres : res = (_insert_scheduled_flow_runs dbg runs1).1 := by
      rw [hrun]
    rcases generate_inv hg with ⟨hnil, _⟩ |
      ⟨d2, sched2, hfind2, hsched2, _, hbuild, _⟩
    · subst hnil
      rw [insert_sched_nil] at hres
      subst hres
      exact ⟨Nat.zero_le _, fun r hr => absurd hr (List.not_mem_nil r)⟩
    · have hd2 : d = d2 := by
        rw [hfind] at hfind2
        exact Option.some.inj hfind2
      subst hd2
      have hs2 : sched = sched2 := by
        rw [hsched] at hsched2
        exact Option.some.inj hsched2
      subst hs2
      obtain ⟨hlen1, _, _, _, hmem1⟩ := buildRuns_ok hbuild
      constructor
      · rw [hres, insert_sched_fst]
        calc (runs1.filter _).length
            ≤ runs1.length := List.length_filter_le _ _
          _ = (sched.getDates maxR start stop).length := hlen1
          _ ≤ maxR := hlen
      · intro r hrres
        rw [hres, insert_sched_fst] at hrres
        have hr1 : r ∈ runs1 := List.mem_of_mem_filter hrres
        obtain ⟨t, ht, hbr⟩ := hmem1 r hr1
        have hnext := (buildRun_ok hbr).2.2.2.2.2.2.2.2.2.1
        rw [hnext]
        exact hmem t ht

/-- Witness for C6 over the concrete store `db1ex`, window `[0, 10)` and
cap 5. -/
theorem C6_window_and_cap_witness :
    exRes.1.length ≤ 5 ∧
    ∀ r ∈ exRes.1, 0 ≤ r.next_scheduled_start_time ∧
      r.next_scheduled_start_time < 10 :=
  C6_window_and_cap cfg1 0 db1ex 1 0 10 5 dep1 sched3 exRes.1 exRes.2 rfl rfl
    (by decide) (by decide) rfl

/-- C3: after a successful `schedule_runs`, every returned run has a state
row of kind SCHEDULED in the final store, with the run's own scheduled
timestamp, and a stored row with the run's id whose current-state pointer
references that state row. -/
theorem C3_linked_scheduled_state (cfg : Config) (now : Nat) (db : DB)
    (did : Nat) (st et mr : Option Nat) (res : List FlowRun) (db2 : DB)
    (h : schedule_runs cfg now db did st et mr = .ok (res, db2)) :
    ∀ r ∈ res,
      ∃ s ∈ db2.flow_run_states,
        s.flow_run_id = r.id ∧ s.payload.type = .SCHEDULED ∧
        s.payload.scheduled_time = r.next_scheduled_start_time ∧
        ∃ row ∈ db2.flow_runs, row.run.id = r.id ∧
          row.state_id = some s.id := by
  unfold schedule_runs at h
  cases hg : _generate_scheduled_flow_runs db did (st.getD now)
      (et.getD (st.getD now + cfg.scheduler_max_scheduled_time))
      (mr.getD cfg.scheduler_max_runs) with
  | error e => rw [hg] at h; exact Except.noConfusion h
  | ok gen =>
    obtain ⟨runs1, dbg⟩ := gen
    rw [hg] at h
    simp only [Except.ok.injEq] at h
    have hnd := generate_ids_nodup hg
    have hstate : ∀ r ∈ runs1, r.state.type = .SCHEDULED ∧
        r.state.scheduled_time = r.next_scheduled_start_time := by
      rcases generate_inv hg with ⟨hnil, _⟩ |
        ⟨d2, sched2, _, _, _, hbuild, _⟩
      · subst hnil
        intro r hr
        cases hr
      · intro r hr
        obtain ⟨_, _, _, _, hmem1⟩ := buildRuns_ok hbuild
        obtain ⟨t, _, hbr⟩ := hmem1 r hr
        have hst := (buildRun_ok hbr).2.2.2.2.2.2.2.1
        have hnext := (buildRun_ok hbr).2.2.2.2.2.2.2.2.2.1
        rw [hst, hnext]
        exact ⟨rfl, rfl⟩
    intro r hrres
    have hr1 : r ∈ (_insert_scheduled_flow_runs dbg runs1).1 := by
      rw [h]
      exact hrres
    obtain ⟨s, hsmem, hsid, hspay, row, hrowmem, hrowid, hrowptr⟩ :=
      insert_sched_links hnd r hr1
    have hdbeq : (_insert_scheduled_flow_runs dbg runs1).2 = db2 := by
      rw [h]
    rw [hdbeq] at hsmem hrowmem
    have hrmem1 : r ∈ runs1 := by
      rw [insert_sched_fst] at hr1
      exact List.mem_of_mem_filter hr1
    obtain ⟨ht, hts⟩ := hstate r hrmem1
    refine ⟨s, hsmem, hsid, ?_, ?_, row, hrowmem, hrowid, hrowptr⟩
    · rw [hspay]
      exact ht
    · rw [hspay]
      exact hts

/-- Witness for C3 over the concrete store `db1ex`, whose scheduling run
returns three runs. -/
theorem C3_linked_scheduled_state_witness :
    exRes.1 ≠ [] ∧
    ∀ r ∈ exRes.1,
      ∃ s ∈ exRes.2.flow_run_states,
        s.flow_run_id = r.id ∧ s.payload.type = .SCHEDULED ∧
        s.payload.scheduled_time = r.next_scheduled_start_time ∧
        ∃ row ∈ exRes.2.flow_runs, row.run.id = r.id ∧
          row.state_id = some s.id :=
  ⟨by decide,
   C3_linked_scheduled_state cfg1 0 db1ex 1 (some 0) (some 10) (some 5)
     exRes.1 exRes.2 rfl⟩

/-- First call of the idempotence argument: on a store where the window's
keys are all absent and ids are fresh, generation succeeds, the persister
returns at least one run, and afterwards every window key is present. -/
theorem schedule_first_call (db : DB) (did start stop maxR : Nat)
    (d : Deployment) (sched : Schedule) (fid : Nat)
    (hfind : db.deployments.find? (fun x => x.id == did) = some d)
    (hsched : d.schedule = some sched)
    (hact : d.is_schedule_active = true)
    (hfid : d.flow_id = some fid)
    (hdates : sched.getDates maxR start stop ≠ [])
    (hkeys : ∀ t ∈ sched.getDates maxR start stop,
      keyPresent db (idempotencyKey d.id t) = false)
    (hfresh : db.freshIds = true) :
    ∃ runs1 dbg,
      _generate_scheduled_flow_runs db did start stop maxR =
        .ok (runs1, dbg) ∧
      (_insert_scheduled_flow_runs dbg runs1).1 ≠ [] ∧
      ∀ t ∈ sched.getDates maxR start stop,
        keyPresent (_insert_scheduled_flow_runs dbg runs1).2
          (idempotencyKey d.id t) = true := by
  obtain ⟨runs1, hb1⟩ :=
    buildRuns_total hfid did (sched.getDates maxR start stop) db.next_id
  have hg1 : _generate_scheduled_flow_runs db did start stop maxR =
      .ok (runs1, { db with next_id := db.next_id +
        (sched.getDates maxR start stop).length }) := by
    simp only [_generate_scheduled_flow_runs, hfind, hsched, hact,
      Bool.not_true, Bool.false_eq_true, if_false, hb1]
  obtain ⟨hlen1, hids1, hkeymap, _, _⟩ := buildRuns_ok hb1
  refine ⟨runs1, _, hg1, ?_, ?_⟩
  · cases hr1 : runs1 with
    | nil =>
      rw [hr1] at hlen1
      exact absurd (List.length_eq_zero.mp hlen1.symm) hdates
    | cons r0 rrest =>
      cases hd : sched.getDates maxR start stop with
      | nil => exact absurd hd hdates
      | cons t0 dtail =>
        rw [hr1, hd] at hkeymap hids1
        simp only [List.map_cons, List.cons.injEq] at hkeymap
        rw [List.length_cons, List.range'_succ] at hids1
        simp only [List.map_cons, List.cons.injEq] at hids1
        have hk0 : r0.idempotency_key = idempotencyKey d.id t0 := hkeymap.1
        have hr0id : r0.id = db.next_id := hids1.1
        have hkp : keyPresent { db with next_id := db.next_id +
            (t0 :: dtail).length }
            r0.idempotency_key = false := by
          show anyKey db.flow_runs r0.idempotency_key = false
          rw [hk0]
          exact hkeys t0 (by rw [hd]; exact List.mem_cons_self _ _)
        have hnostate : ∀ s ∈ ({ db with next_id := db.next_id +
            (t0 :: dtail).length } : DB).flow_run_states,
            ¬s.flow_run_id = r0.id := by
          intro s hs
          have hlt := ((freshIds_iff.mp hfresh).2 s hs).1
          rw [hr0id]
          exact Nat.ne_of_lt hlt
        have hmem0 := @insert_sched_head_mem _ _ rrest hkp hnostate
        exact List.ne_nil_of_mem hmem0
  · intro t ht
    have hmemk : idempotencyKey d.id t ∈
        runs1.map (fun r => r.idempotency_key) := by
      rw [hkeymap]
      exact List.mem_map_of_mem _ ht
    obtain ⟨r, hrm, hrk⟩ := List.mem_map.mp hmemk
    rw [← hrk]
    exact insert_sched_keyPresent hrm

/-- Second call of the idempotence argument: on a store where the window's
keys are all present and ids are fresh, generation succeeds and the
persister returns nothing. -/
theorem schedule_second_call (db1 : DB) (did start stop maxR : Nat)
    (d : Deployment) (sched : Schedule) (fid : Nat)
    (hfind : db1.deployments.find? (fun x => x.id == did) = some d)
    (hsched : d.schedule = some sched)
    (hact : d.is_schedule_active = true)
    (hfid : d.flow_id = some fid)
    (hkeys1 : ∀ t ∈ sched.getDates maxR start stop,
      keyPresent db1 (idempotencyKey d.id t) = true)
    (hfresh1 : db1.freshIds = true) :
    ∃ runs2 dbg2,
      _generate_scheduled_flow_runs db1 did start stop maxR =
        .ok (runs2, dbg2) ∧
      (_insert_scheduled_flow_runs dbg2 runs2).1 = [] := by
  obtain ⟨runs2, hb2⟩ :=
    buildRuns_total hfid did (sched.getDates maxR start stop) db1.next_id
  have hg2 : _generate_scheduled_flow_runs db1 did start stop maxR =
      .ok (runs2, { db1 with next_id := db1.next_id +
        (sched.getDates maxR start stop).length }) := by
    simp only [_generate_scheduled_flow_runs, hfind, hsched, hact,
      Bool.not_true, Bool.false_eq_true, if_false, hb2]
  obtain ⟨_, _, hkeymap2, _, _⟩ := buildRuns_ok hb2
  refine ⟨runs2, _, hg2, ?_⟩
  apply insert_sched_all_conflict
  · intro r hr
    have hmemk : r.idempotency_key ∈
        (sched.getDates maxR start stop).map
          (fun t => idempotencyKey d.id t) := by
      rw [← hkeymap2]
      exact List.mem_map_of_mem _ hr
    obtain ⟨t, ht, hkt⟩ := List.mem_map.mp hmemk
    show anyKey db1.flow_runs r.idempotency_key = true
    rw [← hkt]
    exact hkeys1 t ht
  · intro r hr row hrow
    have hlt := (freshIds_iff.mp hfresh1).1 row hrow
    have hge := (generate_id_bounds hg2 r hr).1
    intro heq
    rw [heq] at hlt
    exact Nat.lt_irrefl _ (Nat.lt_of_le_of_lt hge hlt)

/-- C1 counterexample: `depEmptySched` has an active schedule, yet the
first `schedule_runs` call already returns the empty list (its enumerator
yields no timestamp in the window), refuting the claim that the first call
is always non-empty. -/
theorem C1_counterexample :
    dbEmptySched.deployments.find? (fun d => d.id == 1) =
      some depEmptySched ∧
    depEmptySched.is_schedule_active = true ∧
    depEmptySched.schedule.isSome = true ∧
    depEmptySched.flow_id.isSome = true ∧
    schedule_runs cfg1 0 dbEmptySched 1 (some 0) (some 10) (some 5) =
      .ok ([], dbEmptySched) :=
  ⟨rfl, rfl, rfl, rfl, rfl⟩

/-- C1 (amended): for a deployment with an active schedule whose enumerator
yields at least one timestamp in the window, none of whose keys is already
persisted, and with fresh id generation, two sequential `schedule_runs`
calls with identical arguments yield a non-empty result first and an empty
result second — no run is persisted twice for the same idempotency key. -/
theorem C1_idempotence_amended (cfg : Config) (now : Nat) (db : DB)
    (did : Nat) (st et mr : Option Nat) (d : Deployment) (sched : Schedule)
    (hfind : db.deployments.find? (fun x => x.id == did) = some d)
    (hsched : d.schedule = some sched)
    (hact : d.is_schedule_active = true)
    (hflow : d.flow_id.isSome = true)
    (hdates : sched.getDates (mr.getD cfg.scheduler_max_runs) (st.getD now)
      (et.getD (st.getD now + cfg.scheduler_max_scheduled_time)) ≠ [])
    (hkeys : ∀ t ∈ sched.getDates (mr.getD cfg.scheduler_max_runs)
      (st.getD now)
      (et.getD (st.getD now + cfg.scheduler_max_scheduled_time)),
      keyPresent db (idempotencyKey d.id t) = false)
    (hfresh : db.freshIds = true) :
    ∃ res1 dbA dbB,
      schedule_runs cfg now db did st et mr = .ok (res1, dbA) ∧
      res1 ≠ [] ∧
      schedule_runs cfg now dbA did st et mr = .ok ([], dbB) := by
  obtain ⟨fid, hfid⟩ := Option.isSome_iff_exists.mp hflow
  obtain ⟨runs1, dbg, hg1, hne1, hkeys1⟩ :=
    schedule_first_call db did (st.getD now)
      (et.getD (st.getD now + cfg.scheduler_max_scheduled_time))
      (mr.getD cfg.scheduler_max_runs) d sched fid hfind hsched hact hfid
      hdates hkeys hfresh
  have hcall1 := schedule_runs_eq hg1
  have hcall1p : schedule_runs cfg now db did st et mr =
      .ok ((_insert_scheduled_flow_runs dbg runs1).1,
        (_insert_scheduled_flow_runs dbg runs1).2) := by
    rw [hcall1]
  obtain ⟨hfreshA, _⟩ := schedule_runs_fresh hfresh hcall1p
  have hdepA := schedule_runs_deployments hcall1p
  have hfindA : (_insert_scheduled_flow_runs dbg runs1).2.deployments.find?
      (fun x => x.id == did) = some d := by
    rw [hdepA]
    exact hfind
  obtain ⟨runs2, dbg2, hg2, hempty2⟩ :=
    schedule_second_call (_insert_scheduled_flow_runs dbg runs1).2 did
      (st.getD now)
      (et.getD (st.getD now + cfg.scheduler_max_scheduled_time))
      (mr.getD cfg.scheduler_max_runs) d sched fid hfindA hsched hact hfid
      hkeys1 hfreshA
  have hcall2 := schedule_runs_eq hg2
  refine ⟨(_insert_scheduled_flow_runs dbg runs1).1,
    (_insert_scheduled_flow_runs dbg runs1).2,
    (_insert_scheduled_flow_runs dbg2 runs2).2, hcall1p, hne1, ?_⟩
  rw [hcall2]
  rw [show _insert_scheduled_flow_runs dbg2 runs2 =
    (([] : List FlowRun), (_insert_scheduled_flow_runs dbg2 runs2).2) from
    by rw [← hempty2]]

/-- Witness for C1 (amended) over the concrete store `db1ex`: the schedule
yields `[0, 1, 2]`, no key is persisted yet, ids are fresh. -/
theorem C1_idempotence_amended_witness :
    ∃ res1 dbA dbB,
      schedule_runs cfg1 0 db1ex 1 (some 0) (some 10) (some 5) =
        .ok (res1, dbA) ∧
      res1 ≠ [] ∧
      schedule_runs cfg1 0 dbA 1 (some 0) (some 10) (some 5) =
        .ok ([], dbB) :=
  C1_idempotence_amended cfg1 0 db1ex 1 (some 0) (some 10) (some 5) dep1
    sched3 rfl rfl rfl rfl (by decide) (by decide) rfl

end PrefectScheduler
